import Mathlib

/-!
Shallow embedding of assertions.go (package test, a generic assertion toolkit).

The reporting handle T is modelled by TState: the list of lines written through
Logf plus the failed flag set by Fail.  Helper() is advisory and not modelled.
Each distinct format string passed to Logf or fail in the source is modelled by
one constructor of Msg carrying the formatted arguments, so that distinctness
of failure messages is constructor distinctness.

Go panics are modelled by Option: a function that can panic returns none on the
panicking executions; recover corresponds to handling the none case.
-/

namespace GoTest

/-- Msg models the format strings passed to t.Logf and fail in assertions.go,
one constructor per call site format, with the formatted arguments as fields.
The exact Go format string for each constructor is recorded in a comment. -/
inductive Msg
  | logfDiff (s : String)             -- t.Logf(diff(a, b))
  | expectedNil                       -- ";; expected to be nil; is not nil"
  | expectedNotNil                    -- ";; expected to not be nil; is nil"
  | eqErrorMsg (q : String)           -- "msg: %q"
  | eqErrorErr (q : String)           -- "err: %q"
  | matchingErrorStrings              -- ";; expected matching error strings"
  | eqViaCmp                          -- ";; expected equality via cmp.Equal function"
  | unmarshalFirst                    -- "failed to unmarshal first argument as json: %v"
  | unmarshalSecond                   -- "failed to unmarshal second argument as json: %v"
  | eqViaJSONMarshalling              -- ";; expected equality via json marshalling"
  | lenSliceA (n : Nat)               -- "len(slice a): %d\n"
  | lenSliceB (n : Nat)               -- "len(slice b): %d\n"
  | slicesSameLength                  -- ";; expected slices of same length"
  | sliceEqViaEqFunc                  -- ";; expected slice equality via the eq function"
  | sliceEqViaEquals                  -- ";; expected slice equality via .Equals method"
  | lenMapA (n : Nat)                 -- "len(map a): %d\n"
  | lenMapB (n : Nat)                 -- "len(map b): %d\n"
  | mapsSameLength                    -- ";; expected maps of same length"
  | mapsSameKeys                      -- ";; expected maps of same keys"
  | mapsSameValuesCmp                 -- ";; expected maps of same values via cmp.Diff function"
  | mapsSameValuesEqFunc              -- ";; expected maps of same values via the eq function"
  | mapsSameValuesEquals              -- ";; expected maps of same values via .Equals method"
  | deltaMustBeNumeric (v : String)   -- ";; delta must be numeric; got %v"
  | deltaMustBePositive (v : String)  -- ";; delta must be positive; got %v"
  | firstArgMustBeNumeric (v : String)  -- ";; first argument must be numeric; got %v"
  | secondArgMustBeNumeric (v : String) -- ";; second argument must be numeric; got %v"
  | notWithin (a b d : String)        -- ";; %v and %v not within %v"
deriving DecidableEq

/-- TState models the reporting handle T: the log written through Logf and the
failed flag set by Fail.  Fail never aborts, so every assertion is a state
transformer on TState. -/
structure TState where
  logs : List Msg
  failed : Bool
deriving DecidableEq

/-- logf models t.Logf: append one diagnostic line, leave the failed flag. -/
def logf (t : TState) (m : Msg) : TState := ⟨t.logs ++ [m], t.failed⟩

/-- fail models the reporting primitive (assertions.go lines 15-19): format the
message, log it, then mark the test failed.  The rendered line itself is
modelled by failLine below. -/
def fail (t : TState) (m : Msg) : TState := ⟨t.logs ++ [m], true⟩

/-- failLine models the string-level body of fail: s is fmt.Sprintf(msg, args...)
and the logged text is strings.TrimSpace(s) followed by a newline. -/
def failLine (s : String) : String := s.trim ++ "\n"

/-- GoFloat models a float64 operand: NaN, a signed infinity, or a finite value
represented exactly as a rational (rounding plays no role in the claims). -/
inductive GoFloat
  | nan
  | inf (neg : Bool)
  | fin (q : ℚ)
deriving DecidableEq

/-- isNaN models math.IsNaN on the float model. -/
def GoFloat.isNaN : GoFloat → Bool
  | .nan => true
  | _ => false

/-- isFinite is true exactly when the value is neither NaN nor infinite,
matching the Numeric guard of assertions.go lines 403-416. -/
def GoFloat.isFinite : GoFloat → Bool
  | .fin _ => true
  | _ => false

/-- feq models the float64 equality operator: NaN is equal to nothing,
infinities compare by sign, finite values by exact value. -/
def GoFloat.feq : GoFloat → GoFloat → Bool
  | .fin a, .fin b => a == b
  | .inf a, .inf b => a == b
  | _, _ => false

/-- flt models the float64 less-than operator: any comparison against NaN is
false. -/
def GoFloat.flt : GoFloat → GoFloat → Bool
  | .nan, _ => false
  | _, .nan => false
  | .inf true, .inf true => false
  | .inf true, _ => true
  | _, .inf true => false
  | .inf false, _ => false
  | _, .inf false => true
  | .fin a, .fin b => decide (a < b)

/-- fle models the float64 less-or-equal operator. -/
def GoFloat.fle (a b : GoFloat) : Bool := GoFloat.flt a b || GoFloat.feq a b

/-- fsub models float64 subtraction: NaN propagates, same-signed infinities
cancel to NaN, finite subtraction is exact in the model. -/
def GoFloat.fsub : GoFloat → GoFloat → GoFloat
  | .nan, _ => .nan
  | _, .nan => .nan
  | .inf s, .inf s2 => if s = s2 then .nan else .inf s
  | .inf s, .fin _ => .inf s
  | .fin _, .inf s => .inf (!s)
  | .fin a, .fin b => .fin (a - b)

/-- fneg models float64 negation. -/
def GoFloat.fneg : GoFloat → GoFloat
  | .nan => .nan
  | .inf s => .inf (!s)
  | .fin q => .fin (-q)

/-- frepr models the %v rendering of a float operand (used only as an opaque
message payload; its exact text is not load-bearing). -/
def GoFloat.frepr : GoFloat → String
  | .nan => "NaN"
  | .inf true => "-Inf"
  | .inf false => "+Inf"
  | .fin q => toString q

/-- GoVal is the universe of Go values the comparator claims quantify over:
integers, float64, strings, booleans, function values (recorded only as nil or
non-nil, which is all reflect.DeepEqual and cmp.Equal look at), pointers,
slices, maps (as association lists; canonical key order stands in for the
order-insensitivity of map comparison), and structs whose fields are split
into exported and unexported ones. -/
inductive GoVal
  | vInt (n : Int)
  | vFloat (f : GoFloat)
  | vStr (s : String)
  | vBool (b : Bool)
  | vFunc (isNil : Bool)
  | vPtr (p : Option GoVal)
  | vSlice (xs : List GoVal)
  | vMap (fs : List (String × GoVal))
  | vStruct (exported unexported : List (String × GoVal))

mutual

/-- canHandle is the domain of cmp.Equal and cmp.Diff in the model: they panic
(outside the modelled domain) exactly when the value contains a struct with
unexported fields, the documented panic class of go-cmp without options
(assertions.go comments on diff and equal, lines 21-22 and 33-34). -/
def canHandle : GoVal → Bool
  | .vInt _ => true
  | .vFloat _ => true
  | .vStr _ => true
  | .vBool _ => true
  | .vFunc _ => true
  | .vPtr none => true
  | .vPtr (some v) => canHandle v
  | .vSlice xs => canHandleList xs
  | .vMap fs => canHandleFields fs
  | .vStruct ex un => un.isEmpty && canHandleFields ex
termination_by structural a => a

/-- canHandleList extends canHandle over slice elements. -/
def canHandleList : List GoVal → Bool
  | [] => true
  | v :: vs => canHandle v && canHandleList vs
termination_by structural a => a

/-- canHandleFields extends canHandle over field and map-entry values. -/
def canHandleFields : List (String × GoVal) → Bool
  | [] => true
  | f :: fs => canHandle f.2 && canHandleFields fs
termination_by structural a => a

end

mutual

/-- structEq is structural deep equality on the modelled value universe.  On
values without custom equality methods (none are modelled) cmp.Equal, where it
completes, and reflect.DeepEqual agree and both compute this comparison:
float64 comparison uses the == operator (so NaN is unequal to itself), function
values are equal only when both are nil, pointers are followed, containers
compare element-wise, structs compare field-wise. -/
def structEq : GoVal → GoVal → Bool
  | .vInt n, .vInt m => n == m
  | .vFloat f, .vFloat g => GoFloat.feq f g
  | .vStr s, .vStr u => s == u
  | .vBool b, .vBool c => b == c
  | .vFunc nb, .vFunc nc => nb && nc
  | .vPtr none, .vPtr none => true
  | .vPtr (some v), .vPtr (some w) => structEq v w
  | .vSlice xs, .vSlice ys => structEqList xs ys
  | .vMap fs, .vMap gs => structEqFields fs gs
  | .vStruct ex1 un1, .vStruct ex2 un2 => structEqFields ex1 ex2 && structEqFields un1 un2
  | _, _ => false
termination_by structural a => a

/-- structEqList compares slice contents pointwise. -/
def structEqList : List GoVal → List GoVal → Bool
  | [], [] => true
  | x :: xs, y :: ys => structEq x y && structEqList xs ys
  | _, _ => false
termination_by structural a => a

/-- structEqFields compares field lists pointwise (names and values). -/
def structEqFields : List (String × GoVal) → List (String × GoVal) → Bool
  | [], [] => true
  | f :: fs, g :: gs => f.1 == g.1 && structEq f.2 g.2 && structEqFields fs gs
  | _, _ => false
termination_by structural a => a

end

/-- cmpEqualP models cmp.Equal including its panics: none is a panic (value
outside the handled domain), some r a completed comparison. -/
def cmpEqualP (a b : GoVal) : Option Bool :=
  if canHandle a && canHandle b then some (structEq a b) else none

/-- deepEqual models reflect.DeepEqual: total on the whole universe, comparing
unexported struct fields too; on the fragment where cmp.Equal completes the two
agree (no custom equality methods are modelled). -/
def deepEqual (a b : GoVal) : Bool := structEq a b

/-- equal models assertions.go lines 33-43: run cmp.Equal, and if it panics
recover and return reflect.DeepEqual of the two values instead. -/
def equal (a b : GoVal) : Bool :=
  match cmpEqualP a b with
  | some result => result
  | none => deepEqual a b

mutual

/-- goRepr models the %#v rendering used by the diff fallback; the spec marks
this text as unstable, so the model only needs it to be some deterministic
rendering. -/
def goRepr : GoVal → String
  | .vInt n => toString n
  | .vFloat f => f.frepr
  | .vStr s => "\x22" ++ s ++ "\x22"
  | .vBool b => toString b
  | .vFunc true => "(func)(nil)"
  | .vFunc false => "(func)(0x1)"
  | .vPtr none => "(*)(nil)"
  | .vPtr (some v) => "&" ++ goRepr v
  | .vSlice xs => "[]" ++ goReprList xs
  | .vMap fs => "map[" ++ goReprFields fs ++ "]"
  | .vStruct ex un => "struct[" ++ goReprFields ex ++ ";" ++ goReprFields un ++ "]"
termination_by structural a => a

/-- goReprList renders slice elements. -/
def goReprList : List GoVal → String
  | [] => ""
  | v :: vs => goRepr v ++ " " ++ goReprList vs
termination_by structural a => a

/-- goReprFields renders field lists. -/
def goReprFields : List (String × GoVal) → String
  | [] => ""
  | f :: fs => f.1 ++ ":" ++ goRepr f.2 ++ " " ++ goReprFields fs
termination_by structural a => a

end

/-- cmpDiffP models cmp.Diff including its panics: none is a panic; when it
completes it returns an empty string on equal values and a non-empty report on
unequal ones (the exact report text is unstable and modelled loosely). -/
def cmpDiffP (a b : GoVal) : Option String :=
  if canHandle a && canHandle b then
    some (if structEq a b then "" else "- " ++ goRepr a ++ " + " ++ goRepr b)
  else none

/-- diff models assertions.go lines 23-31: build "difference!\n" + cmp.Diff(a,b),
and if cmp.Diff panics recover and return the %#v dump of both values behind
the same banner. -/
def diff (a b : GoVal) : String :=
  match cmpDiffP a b with
  | some s => "difference!\n" ++ s
  | none => "difference!\na: " ++ goRepr a ++ "\nb: " ++ goRepr b ++ "\n"

/-- Nil models assertions.go lines 45-52: a is the interface value passed as
any; none is the nil interface, some v a non-nil interface (even when v is a
nil typed pointer).  The source compares the interface itself against nil. -/
def Nil (t : TState) (a : Option GoVal) : TState :=
  if a.isSome then fail t .expectedNil else t

/-- NotNil models assertions.go lines 54-61. -/
def NotNil (t : TState) (a : Option GoVal) : TState :=
  if a.isNone then fail t .expectedNotNil else t

/-- EqError models assertions.go lines 90-99.  The error argument is the
Error() string of the error, or none for a nil error.  The body runs
s := err.Error() unconditionally, so a nil error is a method call through a nil
interface: a panic, modelled as the none result. -/
def EqError (t : TState) (err : Option String) (msg : String) : Option TState :=
  match err with
  | none => none
  | some s =>
    if s ≠ msg then
      some (fail (logf (logf t (.eqErrorMsg msg)) (.eqErrorErr s)) .matchingErrorStrings)
    else some t

/-- Eq models assertions.go lines 122-130: compare with equal, and on failure
log diff(a, b) and fail.  It is total (never panics) because equal and diff
recover internally. -/
def Eq (t : TState) (a b : GoVal) : TState :=
  if !equal a b then fail (logf t (.logfDiff (diff a b))) .eqViaCmp else t

/-- EqSliceFunc models assertions.go lines 195-222: a length check that logs
both lengths, the diff and a length-specific message and returns, then an
element-wise loop with the caller-supplied eq, reported with a different
message. -/
def EqSliceFunc (t : TState) (a b : List GoVal) (eq : GoVal → GoVal → Bool) : TState :=
  if a.length ≠ b.length then
    fail (logf (logf (logf t (.lenSliceA a.length)) (.lenSliceB b.length))
      (.logfDiff (diff (.vSlice a) (.vSlice b)))) .slicesSameLength
  else
    if (a.zip b).any (fun p => !eq p.1 p.2) then
      fail (logf t (.logfDiff (diff (.vSlice a) (.vSlice b)))) .sliceEqViaEqFunc
    else t

/-- EqualsSliceLoop models the element loop of EqualsSlice (assertions.go lines
258-264): the Equals method of the element type is the function eqv. -/
def EqualsSliceLoop (t : TState) (pairs : List (GoVal × GoVal)) (eqv : GoVal → GoVal → Bool) : TState :=
  match pairs with
  | [] => t
  | (x, y) :: rest =>
    if !eqv x y then fail (logf t (.logfDiff (diff x y))) .sliceEqViaEquals
    else EqualsSliceLoop t rest eqv

/-- EqualsSlice models assertions.go lines 244-265. -/
def EqualsSlice (t : TState) (a b : List GoVal) (eqv : GoVal → GoVal → Bool) : TState :=
  if a.length ≠ b.length then
    fail (logf (logf (logf t (.lenSliceA a.length)) (.lenSliceB b.length))
      (.logfDiff (diff (.vSlice a) (.vSlice b)))) .slicesSameLength
  else EqualsSliceLoop t (a.zip b) eqv

/-- NumModel packages one instantiation of the Number constraint: the zero
value, Go subtraction and negation at that type (wrapping where the type
wraps), the ordering operators, the Numeric finiteness guard, and the %v
rendering of operands. -/
structure NumModel (N : Type) where
  zero : N
  sub : N → N → N
  neg : N → N
  blt : N → N → Bool
  ble : N → N → Bool
  numericb : N → Bool
  vrepr : N → String

/-- Numeric models assertions.go lines 403-416: false exactly on NaN and
infinities of the float64 conversion, always true for integral types. -/
def Numeric (M : NumModel N) (n : N) : Bool := M.numericb n

/-- InDelta models assertions.go lines 418-449, in source order: the Numeric
guard on delta, the positivity check of delta against the zero value, the
Numeric guards on a and b, then difference := a - b compared against -delta
and delta. -/
def InDelta (M : NumModel N) (t : TState) (a b delta : N) : TState :=
  if !Numeric M delta then fail t (.deltaMustBeNumeric (M.vrepr delta))
  else if M.ble delta M.zero then fail t (.deltaMustBePositive (M.vrepr delta))
  else if !Numeric M a then fail t (.firstArgMustBeNumeric (M.vrepr a))
  else if !Numeric M b then fail t (.secondArgMustBeNumeric (M.vrepr b))
  else
    let difference := M.sub a b
    if M.blt difference (M.neg delta) || M.blt delta difference then
      fail t (.notWithin (M.vrepr a) (M.vrepr b) (M.vrepr delta))
    else t

/-- InDeltaSliceLoop models the element loop of InDeltaSlice (assertions.go
lines 462-464): InDelta applied pairwise, accumulating reports. -/
def InDeltaSliceLoop (M : NumModel N) (t : TState) (pairs : List (N × N)) (delta : N) : TState :=
  match pairs with
  | [] => t
  | (x, y) :: rest => InDeltaSliceLoop M (InDelta M t x y delta) rest delta

/-- InDeltaSlice models assertions.go lines 451-465. -/
def InDeltaSlice (M : NumModel N) (t : TState) (a b : List N) (delta : N) : TState :=
  if a.length ≠ b.length then
    fail (logf (logf t (.lenSliceA a.length)) (.lenSliceB b.length)) .slicesSameLength
  else InDeltaSliceLoop M t (a.zip b) delta

/-- floatModel is the float64 instantiation of the Number constraint. -/
def floatModel : NumModel GoFloat :=
  ⟨.fin 0, GoFloat.fsub, GoFloat.fneg, GoFloat.flt, GoFloat.fle, GoFloat.isFinite, GoFloat.frepr⟩

/-- u8Model is the uint8 instantiation of the Number constraint: values are
naturals below 256, subtraction and negation wrap modulo 2^8 as Go unsigned
arithmetic does, the comparisons are the unsigned comparisons, and Numeric is
constantly true (the float64 conversion of an integral value is finite). -/
def u8Model : NumModel Nat :=
  ⟨0, fun a b => (a + 256 - b) % 256, fun d => (256 - d % 256) % 256,
    fun a b => decide (a < b), fun a b => decide (a ≤ b), fun _ => true, fun n => toString n⟩

/-- mapLookup models the Go map index b[key] on the association-list model. -/
def mapLookup (m : List (String × GoVal)) (k : String) : Option GoVal :=
  match m with
  | [] => none
  | (k2, v) :: rest => if k2 = k then some v else mapLookup rest k

/-- MapEqLoop models the range loop of MapEq (assertions.go lines 481-494).
The value comparison is a bare cmp.Equal call, not the recovering equal
function, so a panic of cmp.Equal (the none of cmpEqualP) escapes the loop. -/
def MapEqLoop (t : TState) (a b entries : List (String × GoVal)) : Option TState :=
  match entries with
  | [] => some t
  | (key, valueA) :: rest =>
    match mapLookup b key with
    | none => some (fail (logf t (.logfDiff (diff (.vMap a) (.vMap b)))) .mapsSameKeys)
    | some valueB =>
      match cmpEqualP valueA valueB with
      | none => none
      | some r =>
        if !r then some (fail (logf t (.logfDiff (diff (.vMap a) (.vMap b)))) .mapsSameValuesCmp)
        else MapEqLoop t a b rest

/-- MapEq models assertions.go lines 467-495: cardinality check first, then the
key and value loop.  The Option result records that the loop can panic. -/
def MapEq (t : TState) (a b : List (String × GoVal)) : Option TState :=
  if a.length ≠ b.length then
    some (fail (logf (logf t (.lenMapA a.length)) (.lenMapB b.length)) .mapsSameLength)
  else MapEqLoop t a b a

/-- MapEqFuncLoop models the range loop of MapEqFunc (assertions.go lines
511-524), value comparison by the caller-supplied eq. -/
def MapEqFuncLoop (t : TState) (a b entries : List (String × GoVal)) (eq : GoVal → GoVal → Bool) : TState :=
  match entries with
  | [] => t
  | (key, valueA) :: rest =>
    match mapLookup b key with
    | none => fail (logf t (.logfDiff (diff (.vMap a) (.vMap b)))) .mapsSameKeys
    | some valueB =>
      if !eq valueA valueB then
        fail (logf t (.logfDiff (diff (.vMap a) (.vMap b)))) .mapsSameValuesEqFunc
      else MapEqFuncLoop t a b rest eq

/-- MapEqFunc models assertions.go lines 497-525. -/
def MapEqFunc (t : TState) (a b : List (String × GoVal)) (eq : GoVal → GoVal → Bool) : TState :=
  if a.length ≠ b.length then
    fail (logf (logf t (.lenMapA a.length)) (.lenMapB b.length)) .mapsSameLength
  else MapEqFuncLoop t a b a eq

/-- MapEqualsLoop models the range loop of MapEquals (assertions.go lines
541-554); note the source calls valueB.Equals(valueA), receiver and argument in
that order. -/
def MapEqualsLoop (t : TState) (a b entries : List (String × GoVal)) (eqv : GoVal → GoVal → Bool) : TState :=
  match entries with
  | [] => t
  | (key, valueA) :: rest =>
    match mapLookup b key with
    | none => fail (logf t (.logfDiff (diff (.vMap a) (.vMap b)))) .mapsSameKeys
    | some valueB =>
      if !eqv valueB valueA then
        fail (logf t (.logfDiff (diff (.vMap a) (.vMap b)))) .mapsSameValuesEquals
      else MapEqualsLoop t a b rest eqv

/-- MapEquals models assertions.go lines 527-555. -/
def MapEquals (t : TState) (a b : List (String × GoVal)) (eqv : GoVal → GoVal → Bool) : TState :=
  if a.length ≠ b.length then
    fail (logf (logf t (.lenMapA a.length)) (.lenMapB b.length)) .mapsSameLength
  else MapEqualsLoop t a b a eqv

/-- JNum is the exact value of a decoded JSON number, m times ten to the e, in
canonical form (m never a multiple of ten unless the value is zero), modelling
the float64 a generic json.Unmarshal decodes every number into: numerically
equal literals such as 1 and 1.0 decode to the same JNum. -/
structure JNum where
  m : Int
  e : Int
deriving DecidableEq

/-- canonNum strips factors of ten from the mantissa into the exponent; the
fuel is an upper bound on the digit count, so it is never exhausted. -/
def canonNum : Nat → Int → Int → JNum
  | 0, m, e => ⟨m, e⟩
  | _ + 1, 0, _ => ⟨0, 0⟩
  | fuel + 1, m, e => if m % 10 = 0 then canonNum fuel (m / 10) (e + 1) else ⟨m, e⟩

/-- JVal models the generic value tree json.Unmarshal decodes into an untyped
any: null, bool, number (decoded as float64, modelled exactly by JNum, so the
literals 1 and 1.0 decode to the same value), string, array, and object
(decoded as a map; the model keeps object fields sorted by key with duplicate
keys resolved last-wins, so structural equality is map equality). -/
inductive JVal
  | jnull
  | jbool (b : Bool)
  | jnum (q : JNum)
  | jstr (s : String)
  | jarr (xs : List JVal)
  | jobj (fs : List (String × JVal))

/-- isWs recognises JSON whitespace. -/
def isWs (c : Char) : Bool := c = ' ' || c = '\t' || c = '\n' || c = '\r'

/-- skipWs drops leading JSON whitespace. -/
def skipWs : List Char → List Char
  | [] => []
  | c :: cs => if isWs c then skipWs cs else c :: cs

/-- digitVal converts a decimal digit character. -/
def digitVal (c : Char) : Nat := c.toNat - 48

/-- readDigits splits a leading run of decimal digits from the rest. -/
def readDigits : List Char → List Char × List Char
  | [] => ([], [])
  | c :: cs =>
    if c.isDigit then
      let p := readDigits cs
      (c :: p.1, p.2)
    else ([], c :: cs)

/-- digitsToNat folds a digit run into a natural number. -/
def digitsToNat (acc : Nat) : List Char → Nat
  | [] => acc
  | c :: cs => digitsToNat (acc * 10 + digitVal c) cs

/-- parseFracDigits parses an optional fractional part and returns its digit
run. -/
def parseFracDigits : List Char → Option (List Char × List Char)
  | '.' :: r =>
    let p := readDigits r
    if p.1.isEmpty then none
    else some (p.1, p.2)
  | cs => some ([], cs)

/-- parseExpDigits parses the digits of an exponent. -/
def parseExpDigits (neg : Bool) (cs : List Char) : Option (Int × List Char) :=
  let p := readDigits cs
  if p.1.isEmpty then none
  else some ((if neg then -(digitsToNat 0 p.1 : Int) else (digitsToNat 0 p.1 : Int)), p.2)

/-- parseExpSign parses the optional sign of an exponent. -/
def parseExpSign : List Char → Option (Int × List Char)
  | '+' :: r => parseExpDigits false r
  | '-' :: r => parseExpDigits true r
  | cs => parseExpDigits false cs

/-- parseExp parses an optional exponent part. -/
def parseExp : List Char → Option (Int × List Char)
  | 'e' :: r => parseExpSign r
  | 'E' :: r => parseExpSign r
  | cs => some (0, cs)

/-- parseNum parses a JSON number literal into its exact decoded value; the
integer literal 1 and the float literal 1.0 both parse to the same JNum,
modelling that encoding/json decodes every number into a float64. -/
def parseNum (cs : List Char) : Option (JNum × List Char) :=
  let sp : Bool × List Char := match cs with | '-' :: r => (true, r) | _ => (false, cs)
  let ip := readDigits sp.2
  if ip.1.isEmpty then none
  else
    match parseFracDigits ip.2 with
    | none => none
    | some (fds, cs3) =>
      match parseExp cs3 with
      | none => none
      | some (e, cs4) =>
        let mnat := digitsToNat 0 (ip.1 ++ fds)
        let m : Int := if sp.1 then -(mnat : Int) else (mnat : Int)
        some (canonNum (ip.1.length + fds.length + 1) m (e - (fds.length : Int)), cs4)

/-- escChar maps the character after a backslash escape to the escaped
character (the simple escapes; unicode escapes are outside the modelled
fragment and make the parse fail). -/
def escChar (c : Char) : Option Char :=
  if c = '"' then some '"'
  else if c = '\\' then some '\\'
  else if c = '/' then some '/'
  else if c = 'n' then some '\n'
  else if c = 't' then some '\t'
  else if c = 'r' then some '\r'
  else if c = 'b' then some '\x08'
  else if c = 'f' then some '\x0c'
  else none

/-- parseStringBody parses the body of a JSON string after the opening quote,
up to and including the closing quote. -/
def parseStringBody : List Char → Option (List Char × List Char)
  | [] => none
  | '"' :: rest => some ([], rest)
  | '\\' :: c :: rest =>
    match escChar c with
    | none => none
    | some e =>
      match parseStringBody rest with
      | none => none
      | some (s, r) => some (e :: s, r)
  | c :: rest =>
    match parseStringBody rest with
    | none => none
    | some (s, r) => some (c :: s, r)

/-- insertField inserts a decoded object field keeping the field list sorted by
key; on a duplicate key the already-present (later-parsed) value is kept,
modelling that encoding/json lets the last duplicate win. -/
def insertField (k : String) (v : JVal) : List (String × JVal) → List (String × JVal)
  | [] => [(k, v)]
  | (k2, v2) :: rest =>
    if k = k2 then (k2, v2) :: rest
    else if k < k2 then (k, v) :: (k2, v2) :: rest
    else (k2, v2) :: insertField k v rest

mutual

/-- parseVal parses one JSON value; the fuel argument bounds nesting depth and
is decremented on every descent, each of which consumes at least one input
character, so the fuel chosen in jsonUnmarshal is never exhausted first. -/
def parseVal : Nat → List Char → Option (JVal × List Char)
  | 0, _ => none
  | fuel + 1, cs =>
    match skipWs cs with
    | [] => none
    | 'n' :: 'u' :: 'l' :: 'l' :: r => some (.jnull, r)
    | 't' :: 'r' :: 'u' :: 'e' :: r => some (.jbool true, r)
    | 'f' :: 'a' :: 'l' :: 's' :: 'e' :: r => some (.jbool false, r)
    | '"' :: r =>
      match parseStringBody r with
      | none => none
      | some (s, rest) => some (.jstr (String.mk s), rest)
    | '[' :: r =>
      match skipWs r with
      | ']' :: rest => some (.jarr [], rest)
      | r2 =>
        match parseItems fuel r2 with
        | none => none
        | some (xs, rest) => some (.jarr xs, rest)
    | '\x7b' :: r =>
      match skipWs r with
      | '\x7d' :: rest => some (.jobj [], rest)
      | r2 =>
        match parseFields fuel r2 with
        | none => none
        | some (fs, rest) => some (.jobj fs, rest)
    | cs2 =>
      match parseNum cs2 with
      | none => none
      | some (q, rest) => some (.jnum q, rest)
termination_by structural fuel => fuel

/-- parseItems parses the comma-separated items of a non-empty array, up to and
including the closing bracket. -/
def parseItems : Nat → List Char → Option (List JVal × List Char)
  | 0, _ => none
  | fuel + 1, cs =>
    match parseVal fuel cs with
    | none => none
    | some (v, rest) =>
      match skipWs rest with
      | ',' :: r2 =>
        match parseItems fuel r2 with
        | none => none
        | some (vs, r3) => some (v :: vs, r3)
      | ']' :: r2 => some ([v], r2)
      | _ => none
termination_by structural fuel => fuel

/-- parseFields parses the comma-separated fields of a non-empty object, up to
and including the closing brace. -/
def parseFields : Nat → List Char → Option (List (String × JVal) × List Char)
  | 0, _ => none
  | fuel + 1, cs =>
    match skipWs cs with
    | '"' :: r =>
      match parseStringBody r with
      | none => none
      | some (kchars, r2) =>
        match skipWs r2 with
        | ':' :: r3 =>
          match parseVal fuel r3 with
          | none => none
          | some (v, r4) =>
            match skipWs r4 with
            | ',' :: r5 =>
              match parseFields fuel r5 with
              | none => none
              | some (fs, r6) => some (insertField (String.mk kchars) v fs, r6)
            | '\x7d' :: r5 => some ([(String.mk kchars, v)], r5)
            | _ => none
        | _ => none
    | _ => none
termination_by structural fuel => fuel

end

/-- jsonUnmarshal models json.Unmarshal into an untyped any: none is a parse
error, some v the decoded generic value tree.  Trailing non-whitespace input is
an error, as in encoding/json. -/
def jsonUnmarshal (s : String) : Option JVal :=
  match parseVal (s.length + 2) s.data with
  | none => none
  | some (v, rest) => if (skipWs rest).isEmpty then some v else none

mutual

/-- jeq models reflect.DeepEqual on two decoded generic value trees; objects
are in canonical key order, so pointwise comparison is map comparison. -/
def jeq : JVal → JVal → Bool
  | .jnull, .jnull => true
  | .jbool a, .jbool b => a == b
  | .jnum a, .jnum b => a == b
  | .jstr a, .jstr b => a == b
  | .jarr xs, .jarr ys => jeqList xs ys
  | .jobj fs, .jobj gs => jeqFields fs gs
  | _, _ => false
termination_by structural a => a

/-- jeqList compares decoded arrays pointwise. -/
def jeqList : List JVal → List JVal → Bool
  | [], [] => true
  | x :: xs, y :: ys => jeq x y && jeqList xs ys
  | _, _ => false
termination_by structural a => a

/-- jeqFields compares decoded objects pointwise. -/
def jeqFields : List (String × JVal) → List (String × JVal) → Bool
  | [], [] => true
  | f :: fs, g :: gs => f.1 == g.1 && jeq f.2 g.2 && jeqFields fs gs
  | _, _ => false
termination_by structural a => a

end

mutual

/-- jrender models json.Marshal of a decoded tree (used only to build the diff
text logged on a mismatch; its exact text is not load-bearing). -/
def jrender : JVal → String
  | .jnull => "null"
  | .jbool true => "true"
  | .jbool false => "false"
  | .jnum q => toString q.m ++ "e" ++ toString q.e
  | .jstr s => "\x22" ++ s ++ "\x22"
  | .jarr xs => "[" ++ jrenderList xs ++ "]"
  | .jobj fs => "\x7b" ++ jrenderFields fs ++ "\x7d"
termination_by structural a => a

/-- jrenderList renders array items. -/
def jrenderList : List JVal → String
  | [] => ""
  | v :: vs => jrender v ++ "," ++ jrenderList vs
termination_by structural a => a

/-- jrenderFields renders object fields. -/
def jrenderFields : List (String × JVal) → String
  | [] => ""
  | f :: fs => "\x22" ++ f.1 ++ "\x22:" ++ jrender f.2 ++ "," ++ jrenderFields fs
termination_by structural a => a

end

/-- EqJSON models assertions.go lines 170-193: unmarshal both strings (each
failure is reported with its own parse-error message and returns before any
comparison), compare the decoded trees with reflect.DeepEqual, and on mismatch
log the diff of the re-marshalled trees and fail. -/
def EqJSON (t : TState) (a b : String) : TState :=
  match jsonUnmarshal a with
  | none => fail t .unmarshalFirst
  | some expA =>
    match jsonUnmarshal b with
    | none => fail t .unmarshalSecond
    | some expB =>
      if !jeq expA expB then
        fail (logf t (.logfDiff (diff (.vStr (jrender expA)) (.vStr (jrender expB)))))
          .eqViaJSONMarshalling
      else t

mutual

/-- hasNaN is true when the value is or contains a floating-point NaN. -/
def hasNaN : GoVal → Bool
  | .vFloat f => f.isNaN
  | .vPtr (some v) => hasNaN v
  | .vSlice xs => hasNaNList xs
  | .vMap fs => hasNaNFields fs
  | .vStruct ex un => hasNaNFields ex || hasNaNFields un
  | _ => false
termination_by structural a => a

/-- hasNaNList extends hasNaN over slice elements. -/
def hasNaNList : List GoVal → Bool
  | [] => false
  | v :: vs => hasNaN v || hasNaNList vs
termination_by structural a => a

/-- hasNaNFields extends hasNaN over field and map-entry values. -/
def hasNaNFields : List (String × GoVal) → Bool
  | [] => false
  | f :: fs => hasNaN f.2 || hasNaNFields fs
termination_by structural a => a

end

mutual

/-- hasFunc is true when the value is or contains a non-nil function value,
which neither comparison strategy ever reports equal to anything. -/
def hasFunc : GoVal → Bool
  | .vFunc isNil => !isNil
  | .vPtr (some v) => hasFunc v
  | .vSlice xs => hasFuncList xs
  | .vMap fs => hasFuncFields fs
  | .vStruct ex un => hasFuncFields ex || hasFuncFields un
  | _ => false
termination_by structural a => a

/-- hasFuncList extends hasFunc over slice elements. -/
def hasFuncList : List GoVal → Bool
  | [] => false
  | v :: vs => hasFunc v || hasFuncList vs
termination_by structural a => a

/-- hasFuncFields extends hasFunc over field and map-entry values. -/
def hasFuncFields : List (String × GoVal) → Bool
  | [] => false
  | f :: fs => hasFunc f.2 || hasFuncFields fs
termination_by structural a => a

end

/-- isInDeltaPre recognises the four precondition messages of InDelta
(assertions.go lines 424-442), as opposed to its value-mismatch message
(line 446). -/
def Msg.isInDeltaPre : Msg → Bool
  | .deltaMustBeNumeric _ => true
  | .deltaMustBePositive _ => true
  | .firstArgMustBeNumeric _ => true
  | .secondArgMustBeNumeric _ => true
  | _ => false

/-- soundReport t t2 holds when an assertion call that turned the handle t into
t2 reported soundly: it either passed and left the handle untouched (no log
line, failed flag unchanged) or logged at least one line and marked the test
failed. -/
def soundReport (t t2 : TState) : Prop :=
  t2 = t ∨ (t.logs.length < t2.logs.length ∧ t2.failed = true)

/-- inDeltaPass records the source conditions under which InDelta reports
nothing: all four guards pass and the difference lies within the inclusive
bounds. -/
def inDeltaPass (M : NumModel N) (a b delta : N) : Prop :=
  Numeric M delta = true ∧ M.ble delta M.zero = false ∧ Numeric M a = true ∧
    Numeric M b = true ∧
    (M.blt (M.sub a b) (M.neg delta) || M.blt delta (M.sub a b)) = false

/-! Shared helper lemmas. -/

theorem fail_ne (t : TState) (m : Msg) : fail t m ≠ t := by
  intro h
  have := congrArg (fun st => st.logs.length) h
  simp [fail] at this

theorem logf_logs (t : TState) (m : Msg) : (logf t m).logs = t.logs ++ [m] := rfl

theorem soundReport_self (t : TState) : soundReport t t := Or.inl rfl

theorem soundReport_fail (t t1 : TState) (m : Msg) (h : t.logs.length ≤ t1.logs.length) :
    soundReport t (fail t1 m) := by
  right
  refine ⟨?_, rfl⟩
  simp only [fail, List.length_append, List.length_cons, List.length_nil]
  omega

theorem soundReport_trans (t t1 t2 : TState) (h1 : soundReport t t1) (h2 : soundReport t1 t2) :
    soundReport t t2 := by
  rcases h1 with h1 | h1
  · subst h1; exact h2
  · rcases h2 with h2 | h2
    · subst h2; exact Or.inr h1
    · exact Or.inr ⟨lt_trans h1.1 h2.1, h2.2⟩

theorem soundReport_fail_logf1 (t : TState) (d m : Msg) :
    soundReport t (fail (logf t d) m) := by
  apply soundReport_fail
  simp [logf]

theorem equal_eq_primary (a b : GoVal) (r : Bool) (h : cmpEqualP a b = some r) :
    equal a b = r := by
  simp [equal, h]

theorem equal_eq_fallback (a b : GoVal) (h : cmpEqualP a b = none) :
    equal a b = deepEqual a b := by
  simp [equal, h]

theorem mapLookup_mem (b : List (String × GoVal)) (k : String) (v : GoVal)
    (h : mapLookup b k = some v) : ∃ k2, (k2, v) ∈ b := by
  induction b with
  | nil => simp [mapLookup] at h
  | cons p rest ih =>
    obtain ⟨k2, w⟩ := p
    by_cases hk : k2 = k
    · rw [mapLookup, if_pos hk] at h
      injection h with h2
      subst h2
      exact ⟨k2, by simp⟩
    · rw [mapLookup, if_neg hk] at h
      obtain ⟨k3, hm⟩ := ih h
      exact ⟨k3, List.mem_cons_of_mem _ hm⟩

mutual

theorem structEq_self : ∀ x : GoVal, structEq x x = (!hasNaN x && !hasFunc x)
  | .vInt n => by simp [structEq, hasNaN, hasFunc]
  | .vFloat f => by
      cases f <;> simp [structEq, hasNaN, hasFunc, GoFloat.feq, GoFloat.isNaN]
  | .vStr s => by simp [structEq, hasNaN, hasFunc]
  | .vBool b => by simp [structEq, hasNaN, hasFunc]
  | .vFunc isNil => by cases isNil <;> simp [structEq, hasNaN, hasFunc]
  | .vPtr none => by simp [structEq, hasNaN, hasFunc]
  | .vPtr (some v) => by
      have ih := structEq_self v
      simp [structEq, hasNaN, hasFunc, ih]
  | .vSlice xs => by
      have ih := structEqList_self xs
      simp [structEq, hasNaN, hasFunc, ih]
  | .vMap fs => by
      have ih := structEqFields_self fs
      simp [structEq, hasNaN, hasFunc, ih]
  | .vStruct ex un => by
      have ih1 := structEqFields_self ex
      have ih2 := structEqFields_self un
      simp only [structEq, hasNaN, hasFunc, ih1, ih2]
      cases h1 : hasNaNFields ex <;> cases h2 : hasNaNFields un <;>
        cases h3 : hasFuncFields ex <;> cases h4 : hasFuncFields un <;> rfl

theorem structEqList_self : ∀ xs : List GoVal,
    structEqList xs xs = (!hasNaNList xs && !hasFuncList xs)
  | [] => by simp [structEqList, hasNaNList, hasFuncList]
  | x :: xs => by
      have ih1 := structEq_self x
      have ih2 := structEqList_self xs
      simp only [structEqList, hasNaNList, hasFuncList, ih1, ih2]
      cases h1 : hasNaN x <;> cases h2 : hasNaNList xs <;>
        cases h3 : hasFunc x <;> cases h4 : hasFuncList xs <;> rfl

theorem structEqFields_self : ∀ fs : List (String × GoVal),
    structEqFields fs fs = (!hasNaNFields fs && !hasFuncFields fs)
  | [] => by simp [structEqFields, hasNaNFields, hasFuncFields]
  | f :: fs => by
      have ih1 := structEq_self f.2
      have ih2 := structEqFields_self fs
      simp only [structEqFields, hasNaNFields, hasFuncFields, ih1, ih2, beq_self_eq_true]
      cases h1 : hasNaN f.2 <;> cases h2 : hasNaNFields fs <;>
        cases h3 : hasFunc f.2 <;> cases h4 : hasFuncFields fs <;> rfl

end

theorem equal_self (x : GoVal) : equal x x = (!hasNaN x && !hasFunc x) := by
  by_cases h : (canHandle x && canHandle x) = true
  · exact (equal_eq_primary x x _ (by rw [cmpEqualP, if_pos h])).trans (structEq_self x)
  · exact (equal_eq_fallback x x (by rw [cmpEqualP, if_neg h])).trans (structEq_self x)

/-! Claim theorems. -/

/-- C10: Nil passes (leaves the handle untouched) exactly when the interface
value itself is nil; a non-nil interface wrapping a nil typed pointer fails Nil
and passes NotNil — there is no unwrapping of the dynamic value. -/
theorem Nil_interface_semantics :
    (∀ (t : TState) (a : Option GoVal), Nil t a = t ↔ a = none) ∧
    (∀ (t : TState) (a : Option GoVal), a.isSome = true →
      Nil t a = fail t .expectedNil ∧ NotNil t a = t) ∧
    (∀ t : TState,
      Nil t (some (.vPtr none)) = fail t .expectedNil ∧ NotNil t (some (.vPtr none)) = t) := by
  refine ⟨fun t a => ⟨fun h => ?_, fun h => ?_⟩, fun t a h => ?_, fun t => ?_⟩
  · cases a with
    | none => rfl
    | some v =>
      exfalso
      exact fail_ne t Msg.expectedNil h
  · subst h; rfl
  · cases a with
    | none => simp at h
    | some v => exact ⟨rfl, rfl⟩
  · exact ⟨rfl, rfl⟩

theorem Nil_interface_semantics_witness :
    Nil ⟨[], false⟩ (some (.vPtr none)) = fail ⟨[], false⟩ .expectedNil ∧
      NotNil ⟨[], false⟩ (some (.vPtr none)) = ⟨[], false⟩ :=
  Nil_interface_semantics.2.2 ⟨[], false⟩

/-- C5: equal first attempts the cmp.Equal computation; when that computation
completes, its result is returned, and when it panics the deferred recover
returns reflect.DeepEqual of the two values instead, so the internal failure
never reaches the caller. -/
theorem equal_primary_fallback :
    ∀ a b : GoVal, (∀ r, cmpEqualP a b = some r → equal a b = r) ∧
      (cmpEqualP a b = none → equal a b = deepEqual a b) :=
  fun a b => ⟨fun _ h => equal_eq_primary a b _ h, fun h => equal_eq_fallback a b h⟩

theorem equal_primary_fallback_witness :
    equal (.vInt 1) (.vInt 2) = false ∧
      equal (.vStruct [] [("x", .vInt 1)]) (.vStruct [] [("x", .vInt 1)]) =
        deepEqual (.vStruct [] [("x", .vInt 1)]) (.vStruct [] [("x", .vInt 1)]) :=
  ⟨(equal_primary_fallback _ _).1 false (by decide), (equal_primary_fallback _ _).2 (by decide)⟩

/-- C4 counterexample: on two values that compare equal, diff still returns the
banner-only string "difference!\n", refuting that diff of equal values is an
empty or neutral result with no inequality banner. -/
theorem diff_equal_banner_only :
    equal (.vInt 1) (.vInt 1) = true ∧ diff (.vInt 1) (.vInt 1) = "difference!\n" := by
  constructor <;> decide

/-- C4 (amended): diff prepends the "difference!" banner unconditionally, so on
values the primary strategy handles and finds equal, diff returns exactly the
banner with an empty cmp.Diff body: the neutral-result property holds of the
diff body, while the whole output is the banner-only string. -/
theorem diff_equal_banner_amended (a b : GoVal) (h : cmpEqualP a b = some true) :
    diff a b = "difference!\n" := by
  rw [cmpEqualP] at h
  by_cases hc : (canHandle a && canHandle b) = true
  · rw [if_pos hc] at h
    injection h with h2
    rw [diff, cmpDiffP, if_pos hc, h2]
    simp
  · rw [if_neg hc] at h
    exact absurd h (by simp)

theorem diff_equal_banner_amended_witness : diff (.vInt 2) (.vInt 2) = "difference!\n" :=
  diff_equal_banner_amended _ _ (by decide)

/-- C2 (code bug): at the uint8 instantiation with a = 5, b = 3, delta = 3 the
exact difference a - b = 2 lies within the inclusive bounds -3 <= a-b <= 3, yet
InDelta computes difference = 2 and -delta = 253 by unsigned wraparound, finds
2 < 253, and reports the values as not within delta, contradicting the claim
and InDelta's own doc comment. -/
theorem InDelta_uint8_wraparound :
    InDelta u8Model ⟨[], false⟩ 5 3 3 = fail ⟨[], false⟩ (.notWithin "5" "3" "3") ∧
      (InDelta u8Model ⟨[], false⟩ 5 3 3).failed = true ∧
      ((-3 : Int) ≤ 5 - 3 ∧ (5 - 3 : Int) ≤ 3) :=
  ⟨by decide, by decide, by decide, by decide⟩

/-- C3 counterexample: for a non-nil function value x, Eq(t, x, x) fails even
though x is not NaN and contains none: both comparison strategies treat non-nil
function values as unequal to everything, so NaN is not the only exception to
reflexivity. -/
theorem Eq_refl_func_fails :
    hasNaN (.vFunc false) = false ∧
      (Eq ⟨[], false⟩ (.vFunc false) (.vFunc false)).failed = true :=
  ⟨rfl, by decide⟩

/-- C3 (amended): Eq(t, x, x) passes for every value that neither is nor
contains a NaN or a non-nil function value; when x is or contains a NaN — or a
non-nil function value — Eq(t, x, x) logs the diff and fails. -/
theorem Eq_refl_amended (t : TState) (x : GoVal) :
    (hasNaN x = false → hasFunc x = false → Eq t x x = t) ∧
    (hasNaN x = true ∨ hasFunc x = true →
      (Eq t x x).failed = true ∧
        (Eq t x x).logs = t.logs ++ [.logfDiff (diff x x), .eqViaCmp]) := by
  constructor
  · intro h1 h2
    rw [Eq, equal_self, h1, h2]
    rfl
  · intro h
    have he : equal x x = false := by
      rw [equal_self]
      rcases h with h | h <;> simp [h]
    rw [Eq, he]
    exact ⟨rfl, by simp [fail, logf]⟩

theorem Eq_refl_amended_witness :
    (Eq ⟨[], false⟩ (.vFloat .nan) (.vFloat .nan)).failed = true ∧
      (Eq ⟨[], false⟩ (.vFloat .nan) (.vFloat .nan)).logs =
        [] ++ [.logfDiff (diff (.vFloat .nan) (.vFloat .nan)), .eqViaCmp] :=
  (Eq_refl_amended ⟨[], false⟩ (.vFloat .nan)).2 (Or.inl rfl)

/-- C1 counterexample: EqError with a nil error panics (the unconditional
err.Error() is a method call through a nil interface), and MapEq panics when
the compared map values are structs with unexported fields that cmp.Equal
cannot handle, because its value comparison calls cmp.Equal directly instead of
the recovering equal. -/
theorem EqError_nil_MapEq_unhandled_panic :
    EqError ⟨[], false⟩ none "boom" = none ∧
      MapEq ⟨[], false⟩ [("k", .vStruct [] [("x", .vInt 1)])]
        [("k", .vStruct [] [("x", .vInt 1)])] = none :=
  ⟨rfl, by decide⟩

theorem MapEqLoop_isSome (t : TState) (a b : List (String × GoVal))
    (hb : ∀ p ∈ b, canHandle p.2 = true) :
    ∀ entries, (∀ p ∈ entries, canHandle p.2 = true) →
      (MapEqLoop t a b entries).isSome = true := by
  intro entries
  induction entries with
  | nil => intro _; rfl
  | cons e rest ih =>
    intro ha
    obtain ⟨key, valueA⟩ := e
    rw [MapEqLoop]
    cases hl : mapLookup b key with
    | none => rfl
    | some valueB =>
      have hA : canHandle valueA = true := ha (key, valueA) (by simp)
      obtain ⟨k2, hmem⟩ := mapLookup_mem b key valueB hl
      have hB : canHandle valueB = true := hb (k2, valueB) hmem
      have hcmp : cmpEqualP valueA valueB = some (structEq valueA valueB) := by
        rw [cmpEqualP, if_pos (by rw [hA, hB]; rfl)]
      simp only [hcmp]
      cases hs : structEq valueA valueB
      · rfl
      · simpa using ih (fun p hp => ha p (List.mem_cons_of_mem _ hp))

/-- C1 (amended): no panic escapes the assertions that use the recovering
comparator — Eq returns a normal report even when the primary strategy panics,
because the recover inside equal substitutes the DeepEqual outcome — and
EqError returns normally for every non-nil error, while MapEq returns normally
whenever every value pair it compares is within cmp.Equal's handled domain.
The exceptions forced by the counterexample are EqError on a nil error and
MapEq on values cmp.Equal cannot handle, where the panic does escape. -/
theorem assertions_no_panic_amended :
    (∀ (t : TState) (s msg : String), (EqError t (some s) msg).isSome = true) ∧
    (∀ (t : TState) (a b : GoVal), cmpEqualP a b = none →
      Eq t a b = if deepEqual a b then t
        else fail (logf t (.logfDiff (diff a b))) .eqViaCmp) ∧
    (∀ (t : TState) (a b : List (String × GoVal)),
      (∀ p ∈ a, canHandle p.2 = true) → (∀ p ∈ b, canHandle p.2 = true) →
      (MapEq t a b).isSome = true) := by
  refine ⟨fun t s msg => ?_, fun t a b h => ?_, fun t a b ha hb => ?_⟩
  · rw [EqError]
    by_cases hs : s ≠ msg
    · rw [if_pos hs]; rfl
    · rw [if_neg hs]; rfl
  · rw [Eq, equal_eq_fallback a b h]
    cases hd : deepEqual a b <;> simp
  · rw [MapEq]
    by_cases hlen : a.length ≠ b.length
    · rw [if_pos hlen]; rfl
    · rw [if_neg hlen]
      exact MapEqLoop_isSome t a b hb a ha

theorem assertions_no_panic_amended_witness :
    (EqError ⟨[], false⟩ (some "x") "x").isSome = true ∧
      Eq ⟨[], false⟩ (.vStruct [] [("u", .vInt 1)]) (.vStruct [] [("u", .vInt 1)]) =
        ⟨[], false⟩ ∧
      (MapEq ⟨[], false⟩ [("k", .vInt 1)] [("k", .vInt 1)]).isSome = true := by
  refine ⟨assertions_no_panic_amended.1 _ _ _, ?_,
    assertions_no_panic_amended.2.2 _ _ _ (by decide) (by decide)⟩
  have h := assertions_no_panic_amended.2.1 ⟨[], false⟩
    (.vStruct [] [("u", .vInt 1)]) (.vStruct [] [("u", .vInt 1)]) (by decide)
  rw [h]
  decide

theorem InDelta_fail_numeric_delta (M : NumModel N) (t : TState) (a b delta : N)
    (h : Numeric M delta = false) :
    InDelta M t a b delta = fail t (.deltaMustBeNumeric (M.vrepr delta)) := by
  rw [InDelta, if_pos (by rw [Numeric] at h ⊢; rw [h]; rfl)]

theorem InDelta_fail_not_positive (M : NumModel N) (t : TState) (a b delta : N)
    (h1 : Numeric M delta = true) (h2 : M.ble delta M.zero = true) :
    InDelta M t a b delta = fail t (.deltaMustBePositive (M.vrepr delta)) := by
  rw [InDelta, if_neg (by rw [h1]; simp), if_pos h2]

theorem InDelta_fail_numeric_a (M : NumModel N) (t : TState) (a b delta : N)
    (h1 : Numeric M delta = true) (h2 : M.ble delta M.zero = false)
    (h3 : Numeric M a = false) :
    InDelta M t a b delta = fail t (.firstArgMustBeNumeric (M.vrepr a)) := by
  rw [InDelta, if_neg (by rw [h1]; simp), if_neg (by rw [h2]; simp),
    if_pos (by rw [h3]; rfl)]

theorem InDelta_fail_numeric_b (M : NumModel N) (t : TState) (a b delta : N)
    (h1 : Numeric M delta = true) (h2 : M.ble delta M.zero = false)
    (h3 : Numeric M a = true) (h4 : Numeric M b = false) :
    InDelta M t a b delta = fail t (.secondArgMustBeNumeric (M.vrepr b)) := by
  rw [InDelta, if_neg (by rw [h1]; simp), if_neg (by rw [h2]; simp),
    if_neg (by rw [h3]; simp), if_pos (by rw [h4]; rfl)]

theorem InDelta_pass (M : NumModel N) (t : TState) (a b delta : N)
    (h : inDeltaPass M a b delta) : InDelta M t a b delta = t := by
  obtain ⟨h1, h2, h3, h4, h5⟩ := h
  rw [InDelta, if_neg (by rw [h1]; simp), if_neg (by rw [h2]; simp),
    if_neg (by rw [h3]; simp), if_neg (by rw [h4]; simp), if_neg (by rw [h5]; simp)]

theorem GoFloat.fle_fin_zero (q : ℚ) (hq : q ≤ 0) :
    GoFloat.fle (.fin q) (.fin 0) = true := by
  rcases lt_or_eq_of_le hq with hlt | heq
  · simp [GoFloat.fle, GoFloat.flt, hlt]
  · simp [GoFloat.fle, GoFloat.feq, heq]

/-- C8: InDelta fails with one of its four precondition messages — every one of
them distinct from the value-mismatch message — and returns before the delta
comparison runs, whenever delta is non-positive or any of a, b, delta is NaN or
infinite, independent of how close a and b are. -/
theorem InDelta_precondition_guard (t : TState) (a b delta : GoFloat)
    (h : (∃ q, delta = .fin q ∧ q ≤ 0) ∨ delta.isFinite = false ∨
      a.isFinite = false ∨ b.isFinite = false) :
    ∃ m, InDelta floatModel t a b delta = fail t m ∧ m.isInDeltaPre = true ∧
      ∀ x y d, m ≠ .notWithin x y d := by
  by_cases hdf : delta.isFinite = true
  · by_cases hble : floatModel.ble delta floatModel.zero = true
    · exact ⟨_, InDelta_fail_not_positive floatModel t a b delta hdf hble, rfl,
        fun x y d h2 => nomatch h2⟩
    · have hble2 : floatModel.ble delta floatModel.zero = false := by simpa using hble
      have hnopos : ¬∃ q, delta = .fin q ∧ q ≤ 0 := by
        rintro ⟨q, rfl, hq⟩
        exact hble (GoFloat.fle_fin_zero q hq)
      rcases h with h | h | h | h
      · exact absurd h hnopos
      · rw [hdf] at h; exact absurd h (by simp)
      · exact ⟨_, InDelta_fail_numeric_a floatModel t a b delta hdf hble2 h, rfl,
          fun x y d h2 => nomatch h2⟩
      · by_cases haf : a.isFinite = true
        · exact ⟨_, InDelta_fail_numeric_b floatModel t a b delta hdf hble2 haf h, rfl,
            fun x y d h2 => nomatch h2⟩
        · have haf2 : a.isFinite = false := by simpa using haf
          exact ⟨_, InDelta_fail_numeric_a floatModel t a b delta hdf hble2 haf2, rfl,
            fun x y d h2 => nomatch h2⟩
  · have hdf2 : delta.isFinite = false := by simpa using hdf
    exact ⟨_, InDelta_fail_numeric_delta floatModel t a b delta hdf2, rfl,
      fun x y d h2 => nomatch h2⟩

theorem InDelta_precondition_guard_witness :
    ∃ m, InDelta floatModel ⟨[], false⟩ (.fin 1) (.fin 1) (.fin 0) = fail ⟨[], false⟩ m ∧
      m.isInDeltaPre = true ∧ ∀ x y d, m ≠ .notWithin x y d :=
  InDelta_precondition_guard _ _ _ _ (Or.inl ⟨0, rfl, le_refl 0⟩)

/-- C6: every slice and map assertion checks sizes first: on a length or
cardinality mismatch it logs the lengths and a length-specific message —
distinct from the element and value mismatch messages — and returns
immediately, performing no element-wise comparison: the result does not depend
on the element comparator (or, for InDeltaSlice, on the delta) at all. -/
theorem size_check_precedes_elementwise :
    (∀ (t : TState) (a b : List GoVal) (eq eq2 : GoVal → GoVal → Bool),
      a.length ≠ b.length →
      EqSliceFunc t a b eq =
        fail (logf (logf (logf t (.lenSliceA a.length)) (.lenSliceB b.length))
          (.logfDiff (diff (.vSlice a) (.vSlice b)))) .slicesSameLength ∧
      EqSliceFunc t a b eq = EqSliceFunc t a b eq2) ∧
    (∀ (t : TState) (a b : List GoVal) (eqv eqv2 : GoVal → GoVal → Bool),
      a.length ≠ b.length →
      EqualsSlice t a b eqv =
        fail (logf (logf (logf t (.lenSliceA a.length)) (.lenSliceB b.length))
          (.logfDiff (diff (.vSlice a) (.vSlice b)))) .slicesSameLength ∧
      EqualsSlice t a b eqv = EqualsSlice t a b eqv2) ∧
    (∀ (N : Type) (M M2 : NumModel N) (t : TState) (a b : List N) (d d2 : N),
      a.length ≠ b.length →
      InDeltaSlice M t a b d =
        fail (logf (logf t (.lenSliceA a.length)) (.lenSliceB b.length)) .slicesSameLength ∧
      InDeltaSlice M t a b d = InDeltaSlice M2 t a b d2) ∧
    (∀ (t : TState) (a b : List (String × GoVal)), a.length ≠ b.length →
      MapEq t a b =
        some (fail (logf (logf t (.lenMapA a.length)) (.lenMapB b.length)) .mapsSameLength)) ∧
    (∀ (t : TState) (a b : List (String × GoVal)) (eq eq2 : GoVal → GoVal → Bool),
      a.length ≠ b.length →
      MapEqFunc t a b eq =
        fail (logf (logf t (.lenMapA a.length)) (.lenMapB b.length)) .mapsSameLength ∧
      MapEqFunc t a b eq = MapEqFunc t a b eq2) ∧
    (∀ (t : TState) (a b : List (String × GoVal)) (eqv eqv2 : GoVal → GoVal → Bool),
      a.length ≠ b.length →
      MapEquals t a b eqv =
        fail (logf (logf t (.lenMapA a.length)) (.lenMapB b.length)) .mapsSameLength ∧
      MapEquals t a b eqv = MapEquals t a b eqv2) ∧
    (Msg.slicesSameLength ≠ Msg.sliceEqViaEqFunc ∧
      Msg.slicesSameLength ≠ Msg.sliceEqViaEquals ∧
      (∀ x y d : String, Msg.slicesSameLength ≠ Msg.notWithin x y d) ∧
      Msg.mapsSameLength ≠ Msg.mapsSameKeys ∧
      Msg.mapsSameLength ≠ Msg.mapsSameValuesCmp ∧
      Msg.mapsSameLength ≠ Msg.mapsSameValuesEqFunc ∧
      Msg.mapsSameLength ≠ Msg.mapsSameValuesEquals) := by
  refine ⟨fun t a b eq eq2 h => ⟨?_, ?_⟩, fun t a b eqv eqv2 h => ⟨?_, ?_⟩,
    fun N M M2 t a b d d2 h => ⟨?_, ?_⟩, fun t a b h => ?_,
    fun t a b eq eq2 h => ⟨?_, ?_⟩, fun t a b eqv eqv2 h => ⟨?_, ?_⟩, ?_⟩
  · simp only [EqSliceFunc, if_pos h]
  · simp only [EqSliceFunc, if_pos h]
  · simp only [EqualsSlice, if_pos h]
  · simp only [EqualsSlice, if_pos h]
  · simp only [InDeltaSlice, if_pos h]
  · simp only [InDeltaSlice, if_pos h]
  · simp only [MapEq, if_pos h]
  · simp only [MapEqFunc, if_pos h]
  · simp only [MapEqFunc, if_pos h]
  · simp only [MapEquals, if_pos h]
  · simp only [MapEquals, if_pos h]
  · refine ⟨by decide, by decide, ?_, by decide, by decide, by decide, by decide⟩
    intro x y d h
    exact nomatch h

theorem size_check_precedes_elementwise_witness :
    EqSliceFunc ⟨[], false⟩ [.vInt 1] [] (fun _ _ => true) =
      fail (logf (logf (logf ⟨[], false⟩ (.lenSliceA 1)) (.lenSliceB 0))
        (.logfDiff (diff (.vSlice [.vInt 1]) (.vSlice [])))) .slicesSameLength ∧
    EqSliceFunc ⟨[], false⟩ [.vInt 1] [] (fun _ _ => true) =
      EqSliceFunc ⟨[], false⟩ [.vInt 1] [] (fun _ _ => false) :=
  (size_check_precedes_elementwise.1 ⟨[], false⟩ [.vInt 1] [] _ _ (by decide))

/-- C7: EqJSON passes whenever both strings parse and their generically decoded
trees are deep-equal — numerically equivalent literals such as 1 and 1.0 decode
to the same tree and compare equal — and when either string fails to parse,
EqJSON reports that argument's parse-error message, distinct from the mismatch
message, and returns before any comparison is attempted. -/
theorem EqJSON_spec :
    (∀ (t : TState) (a b : String) (va vb : JVal), jsonUnmarshal a = some va →
      jsonUnmarshal b = some vb → jeq va vb = true → EqJSON t a b = t) ∧
    (∀ (t : TState) (a b : String), jsonUnmarshal a = none →
      EqJSON t a b = fail t .unmarshalFirst) ∧
    (∀ (t : TState) (a b : String) (va : JVal), jsonUnmarshal a = some va →
      jsonUnmarshal b = none → EqJSON t a b = fail t .unmarshalSecond) ∧
    (Msg.unmarshalFirst ≠ Msg.eqViaJSONMarshalling ∧
      Msg.unmarshalSecond ≠ Msg.eqViaJSONMarshalling) ∧
    (∀ t : TState, EqJSON t "\x7b\"a\":1\x7d" "\x7b\"a\":1.0\x7d" = t) ∧
    (∀ t : TState, EqJSON t "not json" "\x7b\x7d" = fail t .unmarshalFirst) := by
  have hpass : ∀ (t : TState) (a b : String) (va vb : JVal), jsonUnmarshal a = some va →
      jsonUnmarshal b = some vb → jeq va vb = true → EqJSON t a b = t := by
    intro t a b va vb h1 h2 h3
    simp [EqJSON, h1, h2, h3]
  refine ⟨hpass, fun t a b h1 => ?_, fun t a b va h1 h2 => ?_,
    ⟨by decide, by decide⟩, fun t => ?_, fun t => ?_⟩
  · simp [EqJSON, h1]
  · simp [EqJSON, h1, h2]
  · exact hpass t _ _ (.jobj [("a", .jnum ⟨1, 0⟩)]) (.jobj [("a", .jnum ⟨1, 0⟩)]) rfl rfl rfl
  · have h1 : jsonUnmarshal "not json" = none := rfl
    simp [EqJSON, h1]

theorem EqJSON_spec_witness :
    EqJSON ⟨[], false⟩ "\x7b\"a\":1\x7d" "\x7b\"a\":1.0\x7d" = ⟨[], false⟩ ∧
      EqJSON ⟨[], false⟩ "not json" "\x7b\x7d" = fail ⟨[], false⟩ .unmarshalFirst :=
  ⟨EqJSON_spec.2.2.2.2.1 ⟨[], false⟩, EqJSON_spec.2.2.2.2.2 ⟨[], false⟩⟩

theorem InDelta_fail_not_within (M : NumModel N) (t : TState) (a b delta : N)
    (h1 : Numeric M delta = true) (h2 : M.ble delta M.zero = false)
    (h3 : Numeric M a = true) (h4 : Numeric M b = true)
    (h5 : (M.blt (M.sub a b) (M.neg delta) || M.blt delta (M.sub a b)) = true) :
    InDelta M t a b delta =
      fail t (.notWithin (M.vrepr a) (M.vrepr b) (M.vrepr delta)) := by
  rw [InDelta, if_neg (by rw [h1]; simp), if_neg (by rw [h2]; simp),
    if_neg (by rw [h3]; simp), if_neg (by rw [h4]; simp), if_pos h5]

theorem InDelta_sound (M : NumModel N) (t : TState) (a b delta : N) :
    soundReport t (InDelta M t a b delta) := by
  by_cases h1 : Numeric M delta = true
  · by_cases h2 : M.ble delta M.zero = true
    · rw [InDelta_fail_not_positive M t a b delta h1 h2]
      exact soundReport_fail t t _ (le_refl _)
    · have h2f : M.ble delta M.zero = false := by simpa using h2
      by_cases h3 : Numeric M a = true
      · by_cases h4 : Numeric M b = true
        · by_cases h5 : (M.blt (M.sub a b) (M.neg delta) || M.blt delta (M.sub a b)) = true
          · rw [InDelta_fail_not_within M t a b delta h1 h2f h3 h4 h5]
            exact soundReport_fail t t _ (le_refl _)
          · rw [InDelta_pass M t a b delta ⟨h1, h2f, h3, h4, by simpa using h5⟩]
            exact soundReport_self t
        · rw [InDelta_fail_numeric_b M t a b delta h1 h2f h3 (by simpa using h4)]
          exact soundReport_fail t t _ (le_refl _)
      · rw [InDelta_fail_numeric_a M t a b delta h1 h2f (by simpa using h3)]
        exact soundReport_fail t t _ (le_refl _)
  · rw [InDelta_fail_numeric_delta M t a b delta (by simpa using h1)]
    exact soundReport_fail t t _ (le_refl _)

theorem EqualsSliceLoop_sound (t : TState) (eqv : GoVal → GoVal → Bool) :
    ∀ pairs, soundReport t (EqualsSliceLoop t pairs eqv) := by
  intro pairs
  induction pairs with
  | nil => exact soundReport_self t
  | cons p rest ih =>
    obtain ⟨x, y⟩ := p
    rw [EqualsSliceLoop]
    cases he : eqv x y
    · simp only [Bool.not_false, if_true]
      exact soundReport_fail_logf1 t _ _
    · simpa using ih

theorem EqualsSliceLoop_pass (t : TState) (eqv : GoVal → GoVal → Bool) :
    ∀ pairs, (∀ p ∈ pairs, eqv p.1 p.2 = true) → EqualsSliceLoop t pairs eqv = t := by
  intro pairs
  induction pairs with
  | nil => intro _; rfl
  | cons p rest ih =>
    intro h
    obtain ⟨x, y⟩ := p
    have hx : eqv x y = true := h (x, y) (by simp)
    rw [EqualsSliceLoop, hx]
    simpa using ih (fun p hp => h p (List.mem_cons_of_mem _ hp))

theorem InDeltaSliceLoop_sound (M : NumModel N) (delta : N) :
    ∀ (t : TState) (pairs : List (N × N)),
      soundReport t (InDeltaSliceLoop M t pairs delta) := by
  intro t pairs
  induction pairs generalizing t with
  | nil => exact soundReport_self t
  | cons p rest ih =>
    obtain ⟨x, y⟩ := p
    rw [InDeltaSliceLoop]
    exact soundReport_trans t _ _ (InDelta_sound M t x y delta) (ih _)

theorem InDeltaSliceLoop_pass (M : NumModel N) (delta : N) :
    ∀ (t : TState) (pairs : List (N × N)),
      (∀ p ∈ pairs, inDeltaPass M p.1 p.2 delta) →
      InDeltaSliceLoop M t pairs delta = t := by
  intro t pairs
  induction pairs generalizing t with
  | nil => intro _; rfl
  | cons p rest ih =>
    intro h
    obtain ⟨x, y⟩ := p
    rw [InDeltaSliceLoop, InDelta_pass M t x y delta (h (x, y) (by simp))]
    exact ih t (fun p hp => h p (List.mem_cons_of_mem _ hp))

theorem MapEqLoop_sound (t : TState) (a b : List (String × GoVal)) :
    ∀ entries st, MapEqLoop t a b entries = some st → soundReport t st := by
  intro entries
  induction entries with
  | nil =>
    intro st h
    injection h with h
    subst h
    exact soundReport_self t
  | cons e rest ih =>
    intro st h
    obtain ⟨key, valueA⟩ := e
    rw [MapEqLoop] at h
    cases hl : mapLookup b key with
    | none =>
      simp only [hl] at h
      injection h with h2
      subst h2
      exact soundReport_fail_logf1 t _ _
    | some valueB =>
      simp only [hl] at h
      cases hc : cmpEqualP valueA valueB with
      | none => simp only [hc] at h; exact Option.noConfusion h
      | some r =>
        simp only [hc] at h
        cases r
        · simp only [Bool.not_false, if_true] at h
          injection h with h2
          subst h2
          exact soundReport_fail_logf1 t _ _
        · simp only [Bool.not_true, Bool.false_eq_true, if_false] at h
          exact ih st h

theorem MapEqLoop_pass (t : TState) (a b : List (String × GoVal)) :
    ∀ entries,
      (∀ p ∈ entries, ∃ w, mapLookup b p.1 = some w ∧ cmpEqualP p.2 w = some true) →
      MapEqLoop t a b entries = some t := by
  intro entries
  induction entries with
  | nil => intro _; rfl
  | cons e rest ih =>
    intro h
    obtain ⟨key, valueA⟩ := e
    obtain ⟨w, hw, hc⟩ := h (key, valueA) (by simp)
    rw [MapEqLoop]
    simp only [hw, hc, Bool.not_true, Bool.false_eq_true, if_false]
    exact ih (fun p hp => h p (List.mem_cons_of_mem _ hp))

theorem MapEqFuncLoop_sound (t : TState) (a b : List (String × GoVal))
    (eq : GoVal → GoVal → Bool) :
    ∀ entries, soundReport t (MapEqFuncLoop t a b entries eq) := by
  intro entries
  induction entries with
  | nil => exact soundReport_self t
  | cons e rest ih =>
    obtain ⟨key, valueA⟩ := e
    rw [MapEqFuncLoop]
    cases hl : mapLookup b key with
    | none => exact soundReport_fail_logf1 t _ _
    | some valueB =>
      show soundReport t (if (!eq valueA valueB) = true then
        fail (logf t (Msg.logfDiff (diff (.vMap a) (.vMap b)))) Msg.mapsSameValuesEqFunc
        else MapEqFuncLoop t a b rest eq)
      cases he : eq valueA valueB
      · exact soundReport_fail_logf1 t _ _
      · exact ih

theorem MapEqFuncLoop_pass (t : TState) (a b : List (String × GoVal))
    (eq : GoVal → GoVal → Bool) :
    ∀ entries,
      (∀ p ∈ entries, ∃ w, mapLookup b p.1 = some w ∧ eq p.2 w = true) →
      MapEqFuncLoop t a b entries eq = t := by
  intro entries
  induction entries with
  | nil => intro _; rfl
  | cons e rest ih =>
    intro h
    obtain ⟨key, valueA⟩ := e
    obtain ⟨w, hw, he⟩ := h (key, valueA) (by simp)
    rw [MapEqFuncLoop]
    simp only [hw, he, Bool.not_true, Bool.false_eq_true, if_false]
    exact ih (fun p hp => h p (List.mem_cons_of_mem _ hp))

theorem MapEqualsLoop_sound (t : TState) (a b : List (String × GoVal))
    (eqv : GoVal → GoVal → Bool) :
    ∀ entries, soundReport t (MapEqualsLoop t a b entries eqv) := by
  intro entries
  induction entries with
  | nil => exact soundReport_self t
  | cons e rest ih =>
    obtain ⟨key, valueA⟩ := e
    rw [MapEqualsLoop]
    cases hl : mapLookup b key with
    | none => exact soundReport_fail_logf1 t _ _
    | some valueB =>
      show soundReport t (if (!eqv valueB valueA) = true then
        fail (logf t (Msg.logfDiff (diff (.vMap a) (.vMap b)))) Msg.mapsSameValuesEquals
        else MapEqualsLoop t a b rest eqv)
      cases he : eqv valueB valueA
      · exact soundReport_fail_logf1 t _ _
      · exact ih

theorem MapEqualsLoop_pass (t : TState) (a b : List (String × GoVal))
    (eqv : GoVal → GoVal → Bool) :
    ∀ entries,
      (∀ p ∈ entries, ∃ w, mapLookup b p.1 = some w ∧ eqv w p.2 = true) →
      MapEqualsLoop t a b entries eqv = t := by
  intro entries
  induction entries with
  | nil => intro _; rfl
  | cons e rest ih =>
    intro h
    obtain ⟨key, valueA⟩ := e
    obtain ⟨w, hw, he⟩ := h (key, valueA) (by simp)
    rw [MapEqualsLoop]
    simp only [hw, he, Bool.not_true, Bool.false_eq_true, if_false]
    exact ih (fun p hp => h p (List.mem_cons_of_mem _ hp))

/-- C9: the reporting discipline: fail logs exactly one line through the handle
and then marks the test failed (failLine being the trimmed, newline-terminated
rendering of the printf-formatted message), and every modelled assertion either
passes leaving the handle untouched — no log line, not marked failed — or logs
at least one line and marks the test failed; each assertion's pass condition
yields the untouched handle. -/
theorem fail_logging_discipline :
    (∀ (t : TState) (m : Msg),
      (fail t m).logs = t.logs ++ [m] ∧ (fail t m).failed = true) ∧
    (∀ s : String, failLine s = s.trim ++ "\n") ∧
    (∀ (t : TState) (a : Option GoVal),
      soundReport t (Nil t a) ∧ (a = none → Nil t a = t)) ∧
    (∀ (t : TState) (a : Option GoVal),
      soundReport t (NotNil t a) ∧ (a ≠ none → NotNil t a = t)) ∧
    (∀ (t : TState) (a b : GoVal),
      soundReport t (Eq t a b) ∧ (equal a b = true → Eq t a b = t)) ∧
    (∀ (t : TState) (s msg : String) (st : TState), EqError t (some s) msg = some st →
      soundReport t st ∧ (s = msg → st = t)) ∧
    (∀ (t : TState) (a b : String), soundReport t (EqJSON t a b)) ∧
    (∀ (t : TState) (a b : List GoVal) (eq : GoVal → GoVal → Bool),
      soundReport t (EqSliceFunc t a b eq) ∧
      (a.length = b.length → ((a.zip b).all fun p => eq p.1 p.2) = true →
        EqSliceFunc t a b eq = t)) ∧
    (∀ (t : TState) (a b : List GoVal) (eqv : GoVal → GoVal → Bool),
      soundReport t (EqualsSlice t a b eqv) ∧
      (a.length = b.length → ((a.zip b).all fun p => eqv p.1 p.2) = true →
        EqualsSlice t a b eqv = t)) ∧
    (∀ (N : Type) (M : NumModel N) (t : TState) (a b delta : N),
      soundReport t (InDelta M t a b delta) ∧
      (inDeltaPass M a b delta → InDelta M t a b delta = t)) ∧
    (∀ (N : Type) (M : NumModel N) (t : TState) (a b : List N) (delta : N),
      soundReport t (InDeltaSlice M t a b delta) ∧
      (a.length = b.length → (∀ p ∈ a.zip b, inDeltaPass M p.1 p.2 delta) →
        InDeltaSlice M t a b delta = t)) ∧
    (∀ (t : TState) (a b : List (String × GoVal)) (st : TState),
      MapEq t a b = some st → soundReport t st) ∧
    (∀ (t : TState) (a b : List (String × GoVal)),
      a.length = b.length →
      (∀ p ∈ a, ∃ w, mapLookup b p.1 = some w ∧ cmpEqualP p.2 w = some true) →
      MapEq t a b = some t) ∧
    (∀ (t : TState) (a b : List (String × GoVal)) (eq : GoVal → GoVal → Bool),
      soundReport t (MapEqFunc t a b eq) ∧
      (a.length = b.length →
        (∀ p ∈ a, ∃ w, mapLookup b p.1 = some w ∧ eq p.2 w = true) →
        MapEqFunc t a b eq = t)) ∧
    (∀ (t : TState) (a b : List (String × GoVal)) (eqv : GoVal → GoVal → Bool),
      soundReport t (MapEquals t a b eqv) ∧
      (a.length = b.length →
        (∀ p ∈ a, ∃ w, mapLookup b p.1 = some w ∧ eqv w p.2 = true) →
        MapEquals t a b eqv = t)) := by
  refine ⟨fun t m => ⟨rfl, rfl⟩, fun s => rfl, ?_, ?_, ?_, ?_, ?_, ?_, ?_, ?_, ?_,
    ?_, ?_, ?_, ?_⟩
  · intro t a
    refine ⟨?_, fun h => by subst h; rfl⟩
    cases a with
    | none => exact Or.inl rfl
    | some v => exact soundReport_fail t t _ (le_refl _)
  · intro t a
    constructor
    · cases a with
      | none => exact soundReport_fail t t _ (le_refl _)
      | some v => exact Or.inl rfl
    · intro h
      cases a with
      | none => exact absurd rfl h
      | some v => rfl
  · intro t a b
    constructor
    · by_cases he : equal a b = true
      · rw [Eq, he]
        exact Or.inl rfl
      · have he2 : equal a b = false := by simpa using he
        rw [Eq, he2]
        exact soundReport_fail_logf1 t _ _
    · intro he
      rw [Eq, he]
      rfl
  · intro t s msg st h
    by_cases hs : s = msg
    · rw [EqError, if_neg (by simpa using hs)] at h
      injection h with h2
      subst h2
      exact ⟨Or.inl rfl, fun _ => rfl⟩
    · rw [EqError, if_pos hs] at h
      injection h with h2
      subst h2
      refine ⟨soundReport_fail t _ _ (by simp [logf]), fun hc => absurd hc hs⟩
  · intro t a b
    cases h1 : jsonUnmarshal a with
    | none =>
      have hr : EqJSON t a b = fail t .unmarshalFirst := by simp [EqJSON, h1]
      rw [hr]
      exact soundReport_fail t t _ (le_refl _)
    | some va =>
      cases h2 : jsonUnmarshal b with
      | none =>
        have hr : EqJSON t a b = fail t .unmarshalSecond := by simp [EqJSON, h1, h2]
        rw [hr]
        exact soundReport_fail t t _ (le_refl _)
      | some vb =>
        cases h3 : jeq va vb
        · have hr : EqJSON t a b =
              fail (logf t (.logfDiff (diff (.vStr (jrender va)) (.vStr (jrender vb)))))
                .eqViaJSONMarshalling := by
            simp [EqJSON, h1, h2, h3]
          rw [hr]
          exact soundReport_fail_logf1 t _ _
        · have hr : EqJSON t a b = t := by simp [EqJSON, h1, h2, h3]
          rw [hr]
          exact Or.inl rfl
  · intro t a b eq
    constructor
    · by_cases h : a.length ≠ b.length
      · rw [EqSliceFunc, if_pos h]
        exact soundReport_fail t _ _ (by simp [logf])
      · rw [EqSliceFunc, if_neg h]
        cases hm : (a.zip b).any fun p => !eq p.1 p.2
        · exact Or.inl rfl
        · exact soundReport_fail_logf1 t _ _
    · intro hlen hall
      rw [EqSliceFunc, if_neg (by simpa using hlen)]
      have hany : ((a.zip b).any fun p => !eq p.1 p.2) = false := by
        rw [List.any_eq_false]
        intro p hp
        have hp2 := List.all_eq_true.mp hall p hp
        simp only at hp2
        simp [hp2]
      rw [hany]
      rfl
  · intro t a b eqv
    constructor
    · by_cases h : a.length ≠ b.length
      · rw [EqualsSlice, if_pos h]
        exact soundReport_fail t _ _ (by simp [logf])
      · rw [EqualsSlice, if_neg h]
        exact EqualsSliceLoop_sound t eqv _
    · intro hlen hall
      rw [EqualsSlice, if_neg (by simpa using hlen)]
      exact EqualsSliceLoop_pass t eqv _ (fun p hp => List.all_eq_true.mp hall p hp)
  · intro N M t a b delta
    exact ⟨InDelta_sound M t a b delta, fun h => InDelta_pass M t a b delta h⟩
  · intro N M t a b delta
    constructor
    · by_cases h : a.length ≠ b.length
      · rw [InDeltaSlice, if_pos h]
        exact soundReport_fail t _ _ (by simp [logf])
      · rw [InDeltaSlice, if_neg h]
        exact InDeltaSliceLoop_sound M delta t _
    · intro hlen hall
      rw [InDeltaSlice, if_neg (by simpa using hlen)]
      exact InDeltaSliceLoop_pass M delta t _ hall
  · intro t a b st h
    rw [MapEq] at h
    by_cases hlen : a.length ≠ b.length
    · rw [if_pos hlen] at h
      injection h with h2
      subst h2
      exact soundReport_fail t _ _ (by simp [logf])
    · rw [if_neg hlen] at h
      exact MapEqLoop_sound t a b a st h
  · intro t a b hlen hall
    rw [MapEq, if_neg (by simpa using hlen)]
    exact MapEqLoop_pass t a b a hall
  · intro t a b eq
    constructor
    · by_cases hlen : a.length ≠ b.length
      · rw [MapEqFunc, if_pos hlen]
        exact soundReport_fail t _ _ (by simp [logf])
      · rw [MapEqFunc, if_neg hlen]
        exact MapEqFuncLoop_sound t a b eq a
    · intro hlen hall
      rw [MapEqFunc, if_neg (by simpa using hlen)]
      exact MapEqFuncLoop_pass t a b eq a hall
  · intro t a b eqv
    constructor
    · by_cases hlen : a.length ≠ b.length
      · rw [MapEquals, if_pos hlen]
        exact soundReport_fail t _ _ (by simp [logf])
      · rw [MapEquals, if_neg hlen]
        exact MapEqualsLoop_sound t a b eqv a
    · intro hlen hall
      rw [MapEquals, if_neg (by simpa using hlen)]
      exact MapEqualsLoop_pass t a b eqv a hall

theorem fail_logging_discipline_witness :
    (fail ⟨[], false⟩ .expectedNil).logs = [] ++ [.expectedNil] ∧
      (fail ⟨[], false⟩ .expectedNil).failed = true ∧
      Nil ⟨[], false⟩ none = ⟨[], false⟩ :=
  ⟨(fail_logging_discipline.1 ⟨[], false⟩ .expectedNil).1,
    (fail_logging_discipline.1 ⟨[], false⟩ .expectedNil).2,
    (fail_logging_discipline.2.2.1 ⟨[], false⟩ none).2 rfl⟩

end GoTest
